import Mathlib

/-!
Shallow embedding of the `czds` client (ICANN Centralized Zone Data Service
downloader) for verification of its natural-language specification.

Text values (URLs, file paths, report contents) are modelled as `List Char`,
matching Python's view of `str` as a sequence of characters; file contents are
abstracted to byte counts where only sizes matter, and to byte lists where the
actual content matters (gzip decompression).  The filesystem is a partial map
from paths to file sizes.  Stateful Python code is translated into explicit
state passing; exceptions become `Except` values.
-/

namespace Czds

/-- Python strings are sequences of characters. -/
abbrev Str := List Char

/-- Test whether `pat` occurs at the head of `l` (helper for `split`). -/
def leadsWith : Str → Str → Bool
  | [], _ => true
  | _ :: _, [] => false
  | p :: ps, c :: cs => p = c && leadsWith ps cs

/-- Python `s.split(sep)` for a non-empty separator `p :: ps`: scan left to
right, cutting at each non-overlapping occurrence of the separator.
`acc` holds the characters of the current field in reverse; `fuel` bounds the
recursion (any `fuel` at least the input length gives the untruncated split),
keeping the function structurally recursive and hence kernel-computable. -/
def splitSeqGo (p : Char) (ps : Str) : Nat → Str → Str → List Str
  | _, [], acc => [acc.reverse]
  | 0, _ :: _, acc => [acc.reverse]
  | fuel + 1, c :: cs, acc =>
    if leadsWith (p :: ps) (c :: cs) then
      acc.reverse :: splitSeqGo p ps fuel (List.drop ps.length cs) []
    else
      splitSeqGo p ps fuel cs (c :: acc)

/-- Python `s.split(sep)` with separator `p :: ps`. -/
def splitSeq (p : Char) (ps : Str) (s : Str) : List Str :=
  splitSeqGo p ps s.length s []

/-- Python `s.strip()`: remove leading and trailing whitespace. -/
def pyStrip (s : Str) : Str :=
  ((s.dropWhile Char.isWhitespace).reverse.dropWhile Char.isWhitespace).reverse

/-- Python `s.strip(ch)` for a single character: remove leading and trailing
occurrences of `ch`. -/
def pyStripChar (ch : Char) (s : Str) : Str :=
  ((s.dropWhile (· = ch)).reverse.dropWhile (· = ch)).reverse

/-- Python `s[:-3]`: all characters of `s` except the last three (the empty
string when `s` has at most three characters). -/
def pySliceToMinus3 (s : Str) : Str := s.take (s.length - 3)

/-- Model of `os.path.join(dir, name)` for a relative `name`. -/
def joinPath (dir name : Str) : Str := dir ++ '/' :: name

/-- Translation of `content_disposition.split('filename=')[-1].strip('"')`
from `CZDS.download_zone` (client.py line 217). -/
def parseFilename (d : Str) : Str :=
  pyStripChar '"' ((splitSeq 'f' "ilename=".toList d).getLastD [])

/-! ### Filesystem model

A filesystem maps each path to the size in bytes of the file stored there,
`none` meaning no file exists at that path. -/

/-- Filesystem state: path to file size. -/
def FS := Str → Option Nat

/-- Filesystem with no files. -/
def emptyFS : FS := fun _ => none

/-- Create or overwrite the file at `p` with `v` bytes. -/
def fsSet (fs : FS) (p : Str) (v : Nat) : FS :=
  fun q => if q = p then some v else fs q

/-- Model of `os.remove(p)`. -/
def fsRemove (fs : FS) (p : Str) : FS :=
  fun q => if q = p then none else fs q

/-- Model of `if 'filepath' in locals() and os.path.exists(filepath):
os.remove(filepath)` (client.py lines 273-274 and 281-282): remove the file
named by the `filepath` local variable when that variable has been assigned. -/
def fsRemoveOpt (fs : FS) : Option Str → FS
  | none => fs
  | some p => fsRemove fs p

/-! ### Downloader model (`CZDS.download_zone`, client.py lines 177-289)

One download attempt interacts with the transport.  The transport's behaviour
on attempt `i` is described by an `AttemptSpec`: the HTTP status, the declared
`Content-Length` (`0` encodes an absent header, exactly as
`int(response.headers.get('Content-Length', 0))` does), the
`Content-Disposition` header value if any, and how the body stream behaves.
The gzip test-read and decompression of the downloaded artifact either
succeed, producing `decompSize` bytes, or fail (`gzipValid = false`,
covering `gzip.BadGzipFile` / `OSError`). -/

/-- Behaviour of the response body stream during one attempt. -/
inductive StreamOutcome
  | completed (total : Nat)
  | transportFail (written : Nat)
  deriving DecidableEq, Repr

/-- Environment behaviour offered to one download attempt. -/
structure AttemptSpec where
  status200 : Bool
  contentLength : Nat
  disposition : Option Str
  stream : StreamOutcome
  gzipValid : Bool
  decompSize : Nat
  deriving DecidableEq, Repr

/-- Classification of a terminal download failure, following the spec's error
taxonomy as realised in `CZDS.download_zone`. -/
inductive DownloadError
  | httpStatus
  | missingHeader
  | transport
  | incomplete
  | decompressFail
  deriving DecidableEq, Repr

/-- Equality of `Except` outcomes is decidable when both components are. -/
instance {ε α : Type} [DecidableEq ε] [DecidableEq α] : DecidableEq (Except ε α) := fun a b =>
  match a, b with
  | .ok x, .ok y => decidable_of_iff (x = y) (by simp)
  | .error e, .error e' => decidable_of_iff (e = e') (by simp)
  | .ok _, .error _ => isFalse (by simp)
  | .error _, .ok _ => isFalse (by simp)

/-- Data returned by a successful `download_zone` call: the resolved file
path, the bytes received, and the declared expected size (`0` = absent). -/
structure DlSuccess where
  path : Str
  total : Nat
  expected : Nat
  deriving DecidableEq, Repr

/-- Outcome of a whole `download_zone` invocation: the returned value or
raised error, the final filesystem, the number of attempts actually executed,
and a snapshot of the filesystem at each retry boundary (at the
`await asyncio.sleep(retry_delay)` preceding the next attempt). -/
structure RunResult where
  result : Except DownloadError DlSuccess
  fs : FS
  attempts : Nat
  retryStates : List FS

/-- Translation of `max_retries = 3` (client.py line 190). -/
def maxRetries : Nat := 3

/-- Translation of the `for attempt in range(max_retries)` loop body of
`CZDS.download_zone` (client.py lines 193-283), one list element per
remaining attempt; the loop exits by `return` or by an exception reaching
the caller, so the `[]` case is unreachable from a nonempty attempt list
(modelled as a transport error for totality).

Each branch mirrors the source:
* non-200 status: retry if attempts remain, else raise; the final raise is
  caught by the generic handler (line 279) which removes the file named by
  the `filepath` local, if any (lines 281-282);
* missing `Content-Disposition`: `ValueError`, never retried (caught only by
  the generic handler, which removes the `filepath` file, if assigned);
* opening the destination with mode `'wb'` truncates it to zero bytes;
* transport failure mid-stream (lines 232-238): retry if attempts remain
  (without removing the partly written file), else the error is re-raised and
  caught at line 270, which removes the file;
* size mismatch (lines 240-249): remove the file, retry if attempts remain,
  else raise (the generic handler finds the file already gone);
* decompression (lines 254-266): on gzip failure remove the downloaded file
  and raise (never retried); on success `gzip_decompress` writes the output
  at the path with the last three characters cut off and, when `cleanup`,
  removes the compressed original. -/
def runAttempts (dir : Str) (dec cl : Bool) :
    List AttemptSpec → FS → Option Str → RunResult
  | [], fs, _ => ⟨.error .transport, fs, 0, []⟩
  | a :: rest, fs, fp =>
    if a.status200 = false then
      if rest = [] then
        ⟨.error .httpStatus, fsRemoveOpt fs fp, 1, []⟩
      else
        let r := runAttempts dir dec cl rest fs fp
        ⟨r.result, r.fs, r.attempts + 1, fs :: r.retryStates⟩
    else
      match a.disposition with
      | none => ⟨.error .missingHeader, fsRemoveOpt fs fp, 1, []⟩
      | some d =>
        let p := joinPath dir (parseFilename d)
        let fs1 := fsSet fs p 0
        match a.stream with
        | .transportFail w =>
          let fs2 := fsSet fs1 p w
          if rest = [] then
            ⟨.error .transport, fsRemove fs2 p, 1, []⟩
          else
            let r := runAttempts dir dec cl rest fs2 (some p)
            ⟨r.result, r.fs, r.attempts + 1, fs2 :: r.retryStates⟩
        | .completed t =>
          let fs2 := fsSet fs1 p t
          if a.contentLength ≠ 0 ∧ t ≠ a.contentLength then
            let fs3 := fsRemove fs2 p
            if rest = [] then
              ⟨.error .incomplete, fs3, 1, []⟩
            else
              let r := runAttempts dir dec cl rest fs3 (some p)
              ⟨r.result, r.fs, r.attempts + 1, fs3 :: r.retryStates⟩
          else
            if dec then
              if a.gzipValid then
                let op := pySliceToMinus3 p
                let fs3 := fsSet fs2 op a.decompSize
                let fs4 := if cl then fsRemove fs3 p else fs3
                ⟨.ok ⟨op, t, a.contentLength⟩, fs4, 1, []⟩
              else
                ⟨.error .decompressFail, fsRemove fs2 p, 1, []⟩
            else
              ⟨.ok ⟨p, t, a.contentLength⟩, fs2, 1, []⟩

/-- Model of `CZDS.download_zone(url, output_directory, decompress, cleanup)`:
run up to `maxRetries` attempts against the transport behaviour `env`,
starting from an empty filesystem. -/
def download_zone (env : Nat → AttemptSpec) (dir : Str) (dec cl : Bool) : RunResult :=
  runAttempts dir dec cl ((List.range maxRetries).map env) emptyFS none

/-! ### Orchestrator model (`CZDS.download_zones`, client.py lines 292-319)

`download_zones` builds one task per URL, in the order the link-listing API
returned them (the list comprehension at line 314 iterates `zone_links`
directly), and awaits them with `asyncio.gather(*tasks)` — without
`return_exceptions=True`.  Such a `gather` re-raises the exception of the
first task that fails; `gatherStrict` determinises "first" as first in list
order, which is immaterial for whether the call aborts. -/

/-- Model of `await asyncio.gather(*tasks)` without `return_exceptions`:
the combined awaitable fails with a task's error as soon as any task fails,
and yields all results only when every task succeeds. -/
def gatherStrict {ε α : Type} : List (Except ε α) → Except ε (List α)
  | [] => .ok []
  | .error e :: _ => .error e
  | .ok a :: rs => (gatherStrict rs).map (a :: ·)

/-- Order in which `download_zones` creates (and hence dispatches) its tasks:
the list comprehension at client.py line 314 iterates the links exactly as
returned by `fetch_zone_links`, with no sorting. -/
def dispatchUrls (links : List Str) : List Str := links

/-- Model of `CZDS.download_zones`: one `download_zone` task per link (the
per-URL transport behaviour is `envOf url`), gathered strictly. -/
def download_zones (links : List Str) (envOf : Str → Nat → AttemptSpec)
    (dir : Str) (dec cl : Bool) : Except DownloadError (List DlSuccess) :=
  gatherStrict ((dispatchUrls links).map
    (fun url => (download_zone (envOf url) dir dec cl).result))

/-! ### Legacy synchronous entry point (czds.py line 150)

The legacy script's `main` submits downloads over `sorted(zone_links)`.
Python's `sorted` on strings is a stable comparison sort under lexicographic
code-point order; it is modelled by insertion sort under `lexLe`. -/

/-- Lexicographic code-point order on Python strings (`a <= b`). -/
def lexLe : Str → Str → Bool
  | [], _ => true
  | _ :: _, [] => false
  | a :: as, b :: bs => a < b || (a = b && lexLe as bs)

/-- Insert a string into a `lexLe`-sorted list. -/
def insertLex (x : Str) : List Str → List Str
  | [] => [x]
  | y :: ys => if lexLe x y then x :: y :: ys else y :: insertLex x ys

/-- Model of Python `sorted` on a list of strings. -/
def sortLex : List Str → List Str
  | [] => []
  | x :: xs => insertLex x (sortLex xs)

/-- Order in which the legacy `czds.py` `main` submits download tasks:
`sorted(zone_links)` (czds.py line 150). -/
def legacyDispatchUrls (links : List Str) : List Str := sortLex links

/-! ### Report conversion (`CZDS.get_report`, client.py lines 103-140)

With `format='json'` the report text is converted by
`rows = [row.split(',') for row in content.strip().split('\n')]`,
`header = rows[0]`, `content = [dict(zip(header, row)) for row in rows[1:]]`.
A `dict` built from `zip` pairs is modelled as the association list of those
pairs (`zip` truncates to the shorter of the two lists; `dict` deduplication
of repeated header names does not change the key set). -/

/-- Rows of the report: strip the content, split into lines, split each line
naively on commas. -/
def reportRows (content : Str) : List (List Str) :=
  (splitSeq '\n' [] (pyStrip content)).map (fun row => splitSeq ',' [] row)

/-- Header row of the report (`rows[0]`). -/
def reportHeader (content : Str) : List Str :=
  (reportRows content).headD []

/-- Model of the JSON conversion in `CZDS.get_report`: one key-value mapping
per data row, keyed by the header-row names exactly as they appear. -/
def get_report_json (content : Str) : List (List (Str × Str)) :=
  match reportRows content with
  | [] => []
  | header :: rest => rest.map (fun row => header.zip row)

/-- Modelled from the spec: the key normalisation the specification
describes for the JSON report format — header names lower-cased with spaces
replaced by underscores.  Stated only to compare the code's behaviour
against the spec's words. -/
def specHeaderKey (s : Str) : Str :=
  (s.map Char.toLower).map (fun c => if c = ' ' then '_' else c)

/-! ### Decompressor models

`CZDS.gzip_decompress` (client.py lines 143-174) reads the gzip file through
`gzip.open` in one-megabyte chunks and writes each chunk out.  A gzip file is
modelled at member granularity: a list of members, each given by its
decompressed byte content.  CPython's `GzipFile` treats concatenated members
as one logical stream, so the reader state is the not-yet-returned part of
the concatenation of all members, and `read(n)` returns up to `n` bytes of
it.  The loop below is the translation of the `while True: chunk =
gz.read(chunk_size); if not chunk: break; f_out.write(chunk)` loop, for chunk
size `c + 1` (the code uses `1024 * 1024`; any positive size is covered). -/

/-- Output path used by `gzip_decompress` (client.py line 152, utils.py line
34): `output_path = filepath[:-3]`, with no check that the path ends in
`.gz`. -/
def gzip_decompress_output_path (filepath : Str) : Str := pySliceToMinus3 filepath

/-- Translation of the read-write loop of `CZDS.gzip_decompress`: the bytes
written to the output file, given the remaining logical stream. -/
def readLoop (c : Nat) : List Nat → List Nat
  | [] => []
  | b :: rest =>
    ((b :: rest).take (c + 1)) ++ readLoop c ((b :: rest).drop (c + 1))
  termination_by l => l.length
  decreasing_by simp only [List.length_drop, List.length_cons]; omega

/-- Output file content produced by `CZDS.gzip_decompress` (client.py) on a
gzip file whose members decompress to `members`, using chunk size `c + 1`. -/
def gzip_decompress_output (c : Nat) (members : List (List Nat)) : List Nat :=
  readLoop c members.flatten

/-- Model of a CPython `decompressobj`-style gzip decompress object, as used
by `utils.gzip_decompress` (utils.py line 40): it decodes exactly one gzip
member; once that member's end of stream is reached (`finished = true`), all
further input is retained as `unused_data` and `decompress` returns nothing;
`flush` adds nothing further.  (As written the code calls
`gzip.decompressobj()`, an attribute the `gzip` module does not define; this
model charitably gives the loop the semantics of the evidently intended
`zlib.decompressobj`.) -/
def decompressObjRun : Bool → List (List Nat) → List Nat
  | _, [] => []
  | true, _ :: _ => []
  | false, m :: rest => m ++ decompressObjRun true rest

/-- Output file content produced by `utils.gzip_decompress` (utils.py) on a
gzip file whose members decompress to `members`: the whole compressed file is
fed through a single decompress object, and the outputs plus the final
`flush()` are written out. -/
def utils_gzip_decompress_output (members : List (List Nat)) : List Nat :=
  decompressObjRun false members

/-! ### Concurrency model (`asyncio.Semaphore`, client.py lines 285-289, 311)

`download_zones` creates `asyncio.Semaphore(concurrency)` and each
`download_zone` task runs its whole body inside `async with semaphore`.
The event-loop behaviour is modelled as a small-step transition system over
the scheduler state: the semaphore counter plus one phase per task.  A task
is `pend w` while waiting to acquire the semaphore (`w` abstract work steps
ahead of it), `run w` while holding it with `w` work steps (awaits inside
`_download`) remaining, and `done` once finished — the terminal state,
reached on success and failure alike, since the `async with` releases the
semaphore either way. -/

/-- Phase of one download task in the event loop. -/
inductive TaskPhase
  | pend (work : Nat)
  | run (work : Nat)
  | done
  deriving DecidableEq, Repr

/-- Scheduler state: semaphore counter and the phases of all tasks. -/
structure SchedState where
  sem : Nat
  tasks : List TaskPhase
  deriving DecidableEq, Repr

/-- Small-step transitions of the event loop: a waiting task acquires the
semaphore when its counter is positive, a running task performs one work
step, and a running task with no work left finishes and releases the
semaphore. -/
inductive SchedStep : SchedState → SchedState → Prop
  | acquire (s : Nat) (l r : List TaskPhase) (w : Nat) :
      SchedStep ⟨s + 1, l ++ TaskPhase.pend w :: r⟩ ⟨s, l ++ TaskPhase.run w :: r⟩
  | work (s : Nat) (l r : List TaskPhase) (w : Nat) :
      SchedStep ⟨s, l ++ TaskPhase.run (w + 1) :: r⟩ ⟨s, l ++ TaskPhase.run w :: r⟩
  | release (s : Nat) (l r : List TaskPhase) :
      SchedStep ⟨s, l ++ TaskPhase.run 0 :: r⟩ ⟨s + 1, l ++ TaskPhase.done :: r⟩

/-- Whether a task currently holds the semaphore (is in flight). -/
def isInFlight : TaskPhase → Bool
  | .run _ => true
  | _ => false

/-- Number of in-flight downloader invocations. -/
def inFlight (st : SchedState) : Nat := st.tasks.countP isInFlight

/-- Initial scheduler state of `download_zones`: semaphore at `k`
(`asyncio.Semaphore(concurrency)`), every submitted task waiting. -/
def initState (k : Nat) (ws : List Nat) : SchedState :=
  ⟨k, ws.map TaskPhase.pend⟩

/-- States the event loop can reach from the initial state. -/
def Reach (k : Nat) (ws : List Nat) : SchedState → Prop :=
  Relation.ReflTransGen SchedStep (initState k ws)

/-- Termination measure of the scheduler. -/
def phaseMeasure : TaskPhase → Nat
  | .pend w => w + 2
  | .run w => w + 1
  | .done => 0

/-- Total remaining work of a scheduler state. -/
def schedMeasure (st : SchedState) : Nat :=
  (st.tasks.map phaseMeasure).sum

/-! ## Helper lemmas about the Downloader model -/

/-- Filesystem with no files anywhere. -/
def AllNone (fs : FS) : Prop := ∀ q, fs q = none

/-- Filesystem with no files except possibly at `p`. -/
def OnlyAt (p : Str) (fs : FS) : Prop := ∀ q, q ≠ p → fs q = none

/-- Size verification property of a run: a successful result was verified
against the declared size when one was present, and (without decompression)
the destination file holds exactly the bytes received. -/
def OkSizeP (dec : Bool) (r : RunResult) : Prop :=
  ∀ s, r.result = .ok s →
    (s.expected ≠ 0 → s.total = s.expected) ∧
    (dec = false → r.fs s.path = some s.total)

/-- The attempt environment only ever names the file `d` in its
`Content-Disposition` headers. -/
def DispBounded (d : Str) (env : List AttemptSpec) : Prop :=
  ∀ a ∈ env, ∀ d', a.disposition = some d' → d' = d

/-- Cleanup property of a run: a failing run leaves no file on disk. -/
def ErrCleanP (r : RunResult) : Prop :=
  (∃ e, r.result = .error e) → AllNone r.fs

/-- Every run of the attempt loop satisfies the size verification property:
the loop can only `return` after the `total_size != expected_size` check
(client.py lines 240-249) has passed. -/
theorem runAttempts_ok_size (dir : Str) (dec cl : Bool) :
    ∀ (env : List AttemptSpec) (fs : FS) (fp : Option Str),
      OkSizeP dec (runAttempts dir dec cl env fs fp) := by
  intro env
  induction env with
  | nil =>
    intro fs fp s h
    exact absurd h (by simp [runAttempts])
  | cons a rest ih =>
    intro fs fp
    simp only [runAttempts]
    split
    · split
      · intro s h; exact absurd h (by simp)
      · exact fun s h => ih fs fp s h
    · split
      · intro s h; exact absurd h (by simp)
      · rename_i d heq
        split
        · split
          · intro s h; exact absurd h (by simp)
          · exact fun s h => ih _ _ s h
        · rename_i t
          split
          · split
            · intro s h; exact absurd h (by simp)
            · exact fun s h => ih _ _ s h
          · rename_i hnomis
            split
            · split
              · intro s h
                simp only [Except.ok.injEq] at h
                subst h
                rename_i hdec _
                constructor
                · intro hne
                  rcases not_and_or.mp hnomis with h1 | h2
                  · exact absurd hne (by simpa using h1)
                  · simpa using h2
                · intro hf; exact absurd hdec (by simp [hf])
              · intro s h; exact absurd h (by simp)
            · intro s h
              simp only [Except.ok.injEq] at h
              subst h
              constructor
              · intro hne
                rcases not_and_or.mp hnomis with h1 | h2
                · exact absurd hne (by simpa using h1)
                · simpa using h2
              · intro _
                simp [fsSet]

/-- Every run of the attempt loop over an environment that only ever names
the file `d` satisfies the cleanup property: leaving the loop with an
exception always goes through one of the removal sites (client.py lines 244,
265, 273-274, 281-282), so a failing run leaves nothing on disk. -/
theorem runAttempts_error_clean (dir : Str) (dec cl : Bool) (d : Str) :
    ∀ (env : List AttemptSpec) (fs : FS) (fp : Option Str),
      env ≠ [] →
      DispBounded d env →
      ((fp = none ∧ AllNone fs) ∨
        (fp = some (joinPath dir (parseFilename d)) ∧
          OnlyAt (joinPath dir (parseFilename d)) fs)) →
      ErrCleanP (runAttempts dir dec cl env fs fp) := by
  intro env
  induction env with
  | nil => intro fs fp hne _ _; exact absurd rfl hne
  | cons a rest ih =>
    intro fs fp _ hdisp hinv
    simp only [runAttempts]
    split
    · split
      · intro _ q
        rcases hinv with ⟨hfp, hall⟩ | ⟨hfp, honly⟩
        · subst hfp; exact hall q
        · subst hfp
          by_cases hq : q = joinPath dir (parseFilename d)
          · simp [fsRemoveOpt, fsRemove, hq]
          · simp [fsRemoveOpt, fsRemove, hq, honly q hq]
      · rename_i hrest
        exact ih fs fp hrest (fun b hb => hdisp b (List.mem_cons_of_mem a hb)) hinv
    · split
      · intro _ q
        rcases hinv with ⟨hfp, hall⟩ | ⟨hfp, honly⟩
        · subst hfp; exact hall q
        · subst hfp
          by_cases hq : q = joinPath dir (parseFilename d)
          · simp [fsRemoveOpt, fsRemove, hq]
          · simp [fsRemoveOpt, fsRemove, hq, honly q hq]
      · rename_i d' heq
        have hd' : d' = d := hdisp a (List.mem_cons_self a rest) d' heq
        subst hd'
        split
        · split
          · intro _ q
            by_cases hq : q = joinPath dir (parseFilename d')
            · simp [fsRemove, hq]
            · rcases hinv with ⟨_, hall⟩ | ⟨_, honly⟩
              · simp [fsRemove, fsSet, hq, hall q]
              · simp [fsRemove, fsSet, hq, honly q hq]
          · rename_i hrest
            refine ih _ _ hrest (fun b hb => hdisp b (List.mem_cons_of_mem a hb)) ?_
            right
            refine ⟨rfl, fun q hq => ?_⟩
            rcases hinv with ⟨_, hall⟩ | ⟨_, honly⟩
            · simp [fsSet, hq, hall q]
            · simp [fsSet, hq, honly q hq]
        · split
          · split
            · intro _ q
              by_cases hq : q = joinPath dir (parseFilename d')
              · simp [fsRemove, hq]
              · rcases hinv with ⟨_, hall⟩ | ⟨_, honly⟩
                · simp [fsRemove, fsSet, hq, hall q]
                · simp [fsRemove, fsSet, hq, honly q hq]
            · rename_i hrest
              refine ih _ _ hrest (fun b hb => hdisp b (List.mem_cons_of_mem a hb)) ?_
              right
              refine ⟨rfl, fun q hq => ?_⟩
              rcases hinv with ⟨_, hall⟩ | ⟨_, honly⟩
              · simp [fsRemove, fsSet, hq, hall q]
              · simp [fsRemove, fsSet, hq, honly q hq]
          · split
            · split
              · rintro ⟨e, h⟩
                exact absurd h (by simp)
              · intro _ q
                by_cases hq : q = joinPath dir (parseFilename d')
                · simp [fsRemove, hq]
                · rcases hinv with ⟨_, hall⟩ | ⟨_, honly⟩
                  · simp [fsRemove, fsSet, hq, hall q]
                  · simp [fsRemove, fsSet, hq, honly q hq]
            · rintro ⟨e, h⟩
              exact absurd h (by simp)

/-- Snapshot of the filesystem at the retry boundary after a first attempt
that fails mid-stream with a transport error: the partly written file is
still there, holding the `w` bytes received so far. -/
theorem runAttempts_transport_snapshot (dir : Str) (dec cl : Bool)
    (a : AttemptSpec) (rest : List AttemptSpec) (fs : FS) (fp : Option Str)
    (d : Str) (w : Nat)
    (h200 : a.status200 = true) (hd : a.disposition = some d)
    (hs : a.stream = .transportFail w) (hrest : rest ≠ []) :
    (runAttempts dir dec cl (a :: rest) fs fp).retryStates.head? =
      some (fsSet (fsSet fs (joinPath dir (parseFilename d)) 0)
        (joinPath dir (parseFilename d)) w) := by
  simp only [runAttempts, h200, hd, hs]
  simp [hrest]

/-- Snapshot of the filesystem at the retry boundary after a first attempt
whose byte count fails size verification: the file has been removed. -/
theorem runAttempts_mismatch_snapshot (dir : Str) (dec cl : Bool)
    (a : AttemptSpec) (rest : List AttemptSpec) (fs : FS) (fp : Option Str)
    (d : Str) (t : Nat)
    (h200 : a.status200 = true) (hd : a.disposition = some d)
    (hs : a.stream = .completed t)
    (hmis : a.contentLength ≠ 0 ∧ t ≠ a.contentLength) (hrest : rest ≠ []) :
    (runAttempts dir dec cl (a :: rest) fs fp).retryStates.head? =
      some (fsRemove (fsSet (fsSet fs (joinPath dir (parseFilename d)) 0)
        (joinPath dir (parseFilename d)) t) (joinPath dir (parseFilename d))) := by
  simp only [runAttempts, h200, hd, hs]
  simp [hrest, hmis]

/-! ## Helper lemmas about the scheduler model -/

/-- One scheduler step preserves the sum of the semaphore counter and the
number of in-flight tasks. -/
theorem schedStep_inv {st st' : SchedState} (h : SchedStep st st') :
    st'.sem + inFlight st' = st.sem + inFlight st := by
  cases h <;>
    simp [inFlight, isInFlight, List.countP_append, List.countP_cons] <;> omega

/-- Semaphore invariant: in every reachable state, the counter plus the
in-flight tasks equals the initial semaphore value `k`. -/
theorem reach_inv (k : Nat) (ws : List Nat) (st : SchedState) (h : Reach k ws st) :
    st.sem + inFlight st = k := by
  induction h with
  | refl =>
    simp [initState, inFlight, List.countP_map]
    simp [Function.comp, isInFlight]
  | tail _ hstep ih =>
    rw [schedStep_inv hstep]
    exact ih

/-- Progress: with a positive concurrency limit, a reachable state in which
some task has not finished always has a next step — waiting tasks are only
blocked while the semaphore is exhausted, which means some task is in flight
and can proceed. -/
theorem sched_progress (k : Nat) (hk : 1 ≤ k) (ws : List Nat) (st : SchedState)
    (h : Reach k ws st) (hnd : ∃ t ∈ st.tasks, t ≠ TaskPhase.done) :
    ∃ st', SchedStep st st' := by
  have hinv := reach_inv k ws st h
  obtain ⟨sem, tasks⟩ := st
  by_cases hrun : ∃ t ∈ tasks, isInFlight t = true
  · obtain ⟨t, ht, hrt⟩ := hrun
    obtain ⟨l, r, rfl⟩ := List.append_of_mem ht
    cases t with
    | run w =>
      cases w with
      | zero => exact ⟨_, SchedStep.release sem l r⟩
      | succ w => exact ⟨_, SchedStep.work sem l r w⟩
    | pend w => simp [isInFlight] at hrt
    | done => simp [isInFlight] at hrt
  · have hif : inFlight ⟨sem, tasks⟩ = 0 := by
      simp only [inFlight, List.countP_eq_zero]
      intro t ht
      exact fun hc => hrun ⟨t, ht, hc⟩
    have hsem : sem = k := by
      simp only [hif] at hinv
      omega
    obtain ⟨t, ht, htnd⟩ := hnd
    cases t with
    | pend w =>
      obtain ⟨l, r, rfl⟩ := List.append_of_mem ht
      obtain ⟨s', rfl⟩ : ∃ s', sem = s' + 1 := ⟨sem - 1, by omega⟩
      exact ⟨_, SchedStep.acquire s' l r w⟩
    | run w => exact absurd ⟨TaskPhase.run w, ht, rfl⟩ hrun
    | done => exact absurd rfl htnd

/-- Every scheduler step strictly decreases the total remaining work, so
every maximal execution of the event loop is finite. -/
theorem schedStep_measure {st st' : SchedState} (h : SchedStep st st') :
    schedMeasure st' < schedMeasure st := by
  cases h <;>
    simp [schedMeasure, phaseMeasure, List.map_append, List.sum_append]


/-! ## Helper lemmas: gather, decompression loop, report keys, sorting -/

theorem gatherStrict_ok_iff {ε α : Type} (l : List (Except ε α)) :
    (∃ rs, gatherStrict l = .ok rs) ↔ ∀ r ∈ l, ∃ a, r = .ok a := by
  induction l with
  | nil => simp [gatherStrict]
  | cons r rs ih =>
    constructor
    · rintro ⟨out, hout⟩
      intro x hx
      cases r with
      | error e => simp [gatherStrict] at hout
      | ok a =>
        rcases List.mem_cons.mp hx with rfl | hx'
        · exact ⟨a, rfl⟩
        · refine (ih.mp ?_) x hx'
          cases hg : gatherStrict rs with
          | error e =>
            rw [show gatherStrict (Except.ok a :: rs) = (gatherStrict rs).map (a :: ·) from rfl,
              hg] at hout
            simp [Except.map] at hout
          | ok zs => exact ⟨zs, rfl⟩
    · intro hall
      cases r with
      | error e =>
        obtain ⟨a, ha⟩ := hall _ (List.mem_cons_self _ _)
        simp at ha
      | ok a =>
        obtain ⟨zs, hzs⟩ := ih.mpr (fun x hx => hall x (List.mem_cons_of_mem _ hx))
        refine ⟨a :: zs, ?_⟩
        rw [show gatherStrict (Except.ok a :: rs) = (gatherStrict rs).map (a :: ·) from rfl, hzs]
        rfl

theorem readLoop_id (c : Nat) : ∀ l : List Nat, readLoop c l = l
  | [] => by simp [readLoop]
  | b :: rest => by
    rw [readLoop]
    rw [readLoop_id c ((b :: rest).drop (c + 1))]
    exact List.take_append_drop (c + 1) (b :: rest)
  termination_by l => l.length
  decreasing_by simp only [List.length_drop, List.length_cons]; omega

theorem map_fst_zip_take {α β : Type} : ∀ (h : List α) (r : List β),
    (h.zip r).map Prod.fst = h.take r.length
  | [], _ => by simp
  | _ :: _, [] => by simp
  | x :: xs, y :: ys => by simp [map_fst_zip_take xs ys]

def LexLeB (a b : Str) : Prop := lexLe a b = true

theorem lexLe_total : ∀ a b : Str, lexLe a b = true ∨ lexLe b a = true := by
  intro a
  induction a with
  | nil => intro b; left; rfl
  | cons x xs ih =>
    intro b
    cases b with
    | nil => right; rfl
    | cons y ys =>
      by_cases hxy : x = y
      · subst hxy
        rcases ih ys with h | h
        · left; simp [lexLe, h]
        · right; simp [lexLe, h]
      · rcases lt_or_gt_of_ne hxy with h | h
        · left; simp [lexLe, h]
        · right; simp [lexLe, h]

theorem lexLe_trans : ∀ a b c : Str,
    lexLe a b = true → lexLe b c = true → lexLe a c = true := by
  intro a
  induction a with
  | nil => intro b c _ _; rfl
  | cons x xs ih =>
    intro b c hab hbc
    cases b with
    | nil => simp [lexLe] at hab
    | cons y ys =>
      cases c with
      | nil => simp [lexLe] at hbc
      | cons z zs =>
        simp only [lexLe, Bool.or_eq_true, Bool.and_eq_true, decide_eq_true_eq] at hab hbc ⊢
        rcases hab with h1 | ⟨h1, h1r⟩
        · rcases hbc with h2 | ⟨h2, _⟩
          · exact Or.inl (lt_trans h1 h2)
          · exact Or.inl (h2 ▸ h1)
        · rcases hbc with h2 | ⟨h2, h2r⟩
          · exact Or.inl (h1 ▸ h2)
          · exact Or.inr ⟨h1.trans h2, ih ys zs h1r h2r⟩

theorem insertLex_perm (x : Str) : ∀ l : List Str, List.Perm (insertLex x l) (x :: l) := by
  intro l
  induction l with
  | nil => exact List.Perm.refl _
  | cons y ys ih =>
    simp only [insertLex]
    split
    · exact List.Perm.refl _
    · exact (ih.cons y).trans (List.Perm.swap x y ys)

theorem sortLex_perm : ∀ l : List Str, List.Perm (sortLex l) l := by
  intro l
  induction l with
  | nil => exact List.Perm.refl _
  | cons x xs ih =>
    exact (insertLex_perm x (sortLex xs)).trans (ih.cons x)

theorem insertLex_pairwise (x : Str) : ∀ l : List Str,
    l.Pairwise LexLeB → (insertLex x l).Pairwise LexLeB := by
  intro l
  induction l with
  | nil => intro _; simp [insertLex, List.pairwise_cons]
  | cons y ys ih =>
    intro h
    rcases List.pairwise_cons.mp h with ⟨hy, hys⟩
    simp only [insertLex]
    split
    · rename_i hxy
      refine List.pairwise_cons.mpr ⟨?_, h⟩
      intro z hz
      rcases List.mem_cons.mp hz with rfl | hz'
      · exact hxy
      · exact lexLe_trans x y z hxy (hy z hz')
    · rename_i hxy
      refine List.pairwise_cons.mpr ⟨?_, ih hys⟩
      intro z hz
      rcases List.mem_cons.mp ((insertLex_perm x ys).mem_iff.mp hz) with rfl | hz'
      · rcases lexLe_total z y with h' | h'
        · exact absurd h' hxy
        · exact h'
      · exact hy z hz'

theorem sortLex_pairwise : ∀ l : List Str, (sortLex l).Pairwise LexLeB := by
  intro l
  induction l with
  | nil => simp [sortLex]
  | cons x xs ih => exact insertLex_pairwise x (sortLex xs) ih

/-! ## Claims -/

/-- Claim C1 (amended): per-task errors are not caught at the task boundary —
`download_zones` gathers its tasks without `return_exceptions`, so it returns
normally exactly when every task succeeds, and otherwise re-raises a failing
task's error. -/
theorem download_zones_ok_iff (links : List Str) (envOf : Str → Nat → AttemptSpec)
    (dir : Str) (dec cl : Bool) :
    (∃ rs, download_zones links envOf dir dec cl = .ok rs) ↔
      ∀ url ∈ links, ∃ s, (download_zone (envOf url) dir dec cl).result = .ok s := by
  unfold download_zones dispatchUrls
  rw [gatherStrict_ok_iff]
  constructor
  · intro h url hu
    exact h _ (List.mem_map_of_mem _ hu)
  · rintro h r hr
    obtain ⟨url, hu, rfl⟩ := List.mem_map.mp hr
    exact h url hu

/-- Claim C1 (counterexample): one always-failing task makes the whole
`download_zones` call fail instead of completing with the error recorded. -/
theorem download_zones_single_failure_aborts :
    download_zones ["https://czds-api.icann.org/czds/downloads/a.zone".toList]
        (fun _ _ => ⟨false, 0, none, .completed 0, true, 0⟩) "out".toList false true
      = .error .httpStatus ∧
    (download_zones ["https://czds-api.icann.org/czds/downloads/a.zone".toList]
        (fun _ _ => ⟨false, 0, none, .completed 0, true, 0⟩) "out".toList false true).isOk
      = false := by
  exact ⟨by decide, by decide⟩

/-- Claim C2 (amended): after a mid-stream transport failure with retries
remaining, the partly written file is still on disk, with the bytes received
so far, at the retry boundary — the Downloader does not delete it before
delaying. -/
theorem download_zone_partial_kept_until_next_attempt
    (a : AttemptSpec) (rest : List AttemptSpec) (dir : Str) (dec cl : Bool)
    (fs : FS) (fp : Option Str) (d : Str) (w : Nat)
    (h200 : a.status200 = true) (hd : a.disposition = some d)
    (hs : a.stream = .transportFail w) (hrest : rest ≠ []) :
    ∃ fs1, (runAttempts dir dec cl (a :: rest) fs fp).retryStates.head? = some fs1 ∧
      fs1 (joinPath dir (parseFilename d)) = some w := by
  refine ⟨_, runAttempts_transport_snapshot dir dec cl a rest fs fp d w h200 hd hs hrest, ?_⟩
  simp [fsSet]

/-- Claim C2 (witness). -/
theorem download_zone_partial_kept_until_next_attempt_witness :
    ∃ fs1, (runAttempts "out".toList false true
        [⟨true, 5, some "a.zone.gz".toList, .transportFail 3, true, 0⟩,
         ⟨true, 5, some "a.zone.gz".toList, .completed 5, true, 0⟩] emptyFS none).retryStates.head?
        = some fs1 ∧
      fs1 (joinPath "out".toList (parseFilename "a.zone.gz".toList)) = some 3 :=
  download_zone_partial_kept_until_next_attempt
    ⟨true, 5, some "a.zone.gz".toList, .transportFail 3, true, 0⟩
    [⟨true, 5, some "a.zone.gz".toList, .completed 5, true, 0⟩]
    "out".toList false true emptyFS none "a.zone.gz".toList 3 rfl rfl rfl (by decide)

/-- Claim C2 (counterexample): at the retry boundary the partly written file
still holds its 3 bytes. -/
theorem download_zone_partial_persists_counterexample :
    ((download_zone (fun _ => ⟨true, 5, some "a.zone.gz".toList, .transportFail 3, true, 0⟩)
        "out".toList false true).retryStates.head?.map
      (fun f => f "out/a.zone.gz".toList)) = some (some 3) := by decide

/-- Claim C3 (counterexample): the async client dispatches in the order the
API returned, not sorted. -/
theorem dispatch_order_counterexample :
    dispatchUrls ["https://czds-api.icann.org/czds/downloads/b.zone".toList,
        "https://czds-api.icann.org/czds/downloads/a.zone".toList]
      = ["https://czds-api.icann.org/czds/downloads/b.zone".toList,
         "https://czds-api.icann.org/czds/downloads/a.zone".toList] ∧
    sortLex ["https://czds-api.icann.org/czds/downloads/b.zone".toList,
        "https://czds-api.icann.org/czds/downloads/a.zone".toList]
      = ["https://czds-api.icann.org/czds/downloads/a.zone".toList,
         "https://czds-api.icann.org/czds/downloads/b.zone".toList] ∧
    (dispatchUrls ["https://czds-api.icann.org/czds/downloads/b.zone".toList,
        "https://czds-api.icann.org/czds/downloads/a.zone".toList]
      == sortLex ["https://czds-api.icann.org/czds/downloads/b.zone".toList,
        "https://czds-api.icann.org/czds/downloads/a.zone".toList]) = false := by
  exact ⟨by decide, by decide, by decide⟩

/-- Claim C3 (amended): the async core dispatches tasks in exactly the order
the link-listing API returned them, unsorted; only the legacy synchronous
script sorts the URLs, and its sort is a lexicographically ordered
permutation of the links. -/
theorem dispatch_unsorted_async_sorted_legacy :
    (∀ links : List Str, dispatchUrls links = links) ∧
    (∀ links : List Str, List.Perm (legacyDispatchUrls links) links) ∧
    (∀ links : List Str, (legacyDispatchUrls links).Pairwise LexLeB) :=
  ⟨fun _ => rfl, fun links => sortLex_perm links, fun links => sortLex_pairwise links⟩

/-- Claim C4: on a gzip input of one or more concatenated members, the
client.py decompress loop writes exactly the concatenation of all members'
decompressed content, for every chunk size; the utils.py decompress-object
loop instead drops everything after the first member at the two-member
failing input (the code bug). -/
theorem gzip_decompress_multi_member :
    (∀ (c : Nat) (members : List (List Nat)),
      gzip_decompress_output c members = members.flatten) ∧
    utils_gzip_decompress_output [[1], [2]] = [1] ∧
    ([1] ++ [2] : List Nat) = [1, 2] ∧
    (([1] : List Nat) == [1, 2]) = false :=
  ⟨fun c members => readLoop_id c members.flatten, by decide, by decide, by decide⟩

/-- Claim C5 (counterexample): the key `Zone Name` survives verbatim in the
JSON report where the spec's normalisation would give `zone_name`. -/
theorem report_json_keys_counterexample :
    (get_report_json "Zone Name,Count\nexample.com,5".toList).map (fun m => m.map Prod.fst)
      = [["Zone Name".toList, "Count".toList]] ∧
    [specHeaderKey "Zone Name".toList, specHeaderKey "Count".toList]
      = ["zone_name".toList, "count".toList] ∧
    ((get_report_json "Zone Name,Count\nexample.com,5".toList).map (fun m => m.map Prod.fst)
      == [[specHeaderKey "Zone Name".toList, specHeaderKey "Count".toList]]) = false := by
  exact ⟨by decide, by decide, by decide⟩

/-- Claim C5 (amended): every mapping of the JSON report is keyed by the
header-row names exactly as they appear, truncated to the row's length by
`zip` — no lower-casing, no space-to-underscore replacement. -/
theorem report_json_keys_raw (content : Str) :
    ∀ m ∈ get_report_json content, m.map Prod.fst = (reportHeader content).take m.length := by
  intro m hm
  rcases hr : reportRows content with _ | ⟨header, rest⟩
  · simp [get_report_json, hr] at hm
  · simp only [get_report_json, hr, List.mem_map] at hm
    obtain ⟨row, hrow, rfl⟩ := hm
    rw [map_fst_zip_take header row, List.length_zip]
    simp only [reportHeader, hr, List.headD_cons]
    rcases le_total header.length row.length with h | h
    · rw [Nat.min_eq_left h, List.take_of_length_le h, List.take_length]
    · rw [Nat.min_eq_right h]

/-- Claim C5 (witness). -/
theorem report_json_keys_raw_witness :
    ([("Zone Name".toList, "example.com".toList), ("Count".toList, "5".toList)]).map Prod.fst
      = (reportHeader "Zone Name,Count\nexample.com,5".toList).take 2 :=
  report_json_keys_raw "Zone Name,Count\nexample.com,5".toList
    [("Zone Name".toList, "example.com".toList), ("Count".toList, "5".toList)] (by decide)

/-- Claim C6: when the declared size is present and the bytes written differ
from it, the Downloader deletes the file before the retry delay (the retry
boundary snapshot holds nothing at the destination path); consequently a
successful result was verified — the bytes received equal the declared size
whenever one was provided, and without decompression the destination file on
disk holds exactly that many bytes. -/
theorem download_zone_size_verified :
    (∀ (a : AttemptSpec) (rest : List AttemptSpec) (dir : Str) (dec cl : Bool)
        (fs : FS) (fp : Option Str) (d : Str) (t : Nat),
      a.status200 = true → a.disposition = some d → a.stream = .completed t →
      a.contentLength ≠ 0 → t ≠ a.contentLength → rest ≠ [] →
      ∃ fs1, (runAttempts dir dec cl (a :: rest) fs fp).retryStates.head? = some fs1 ∧
        fs1 (joinPath dir (parseFilename d)) = none) ∧
    (∀ (env : Nat → AttemptSpec) (dir : Str) (dec cl : Bool) (s : DlSuccess),
      (download_zone env dir dec cl).result = .ok s → s.expected ≠ 0 →
      s.total = s.expected ∧
        (dec = false → (download_zone env dir dec cl).fs s.path = some s.expected)) := by
  constructor
  · intro a rest dir dec cl fs fp d t h200 hd hs hcl hne hrest
    refine ⟨_, runAttempts_mismatch_snapshot dir dec cl a rest fs fp d t h200 hd hs
      ⟨hcl, hne⟩ hrest, ?_⟩
    simp [fsRemove]
  · intro env dir dec cl s hok hexp
    have h := runAttempts_ok_size dir dec cl ((List.range maxRetries).map env) emptyFS none s hok
    exact ⟨h.1 hexp, fun hdec => (h.1 hexp) ▸ h.2 hdec⟩

/-- Claim C6 (witness). -/
theorem download_zone_size_verified_witness :
    ∃ fs1, (runAttempts "out".toList false true
        [⟨true, 5, some "a.zone.gz".toList, .completed 4, true, 0⟩,
         ⟨true, 5, some "a.zone.gz".toList, .completed 5, true, 0⟩] emptyFS none).retryStates.head?
        = some fs1 ∧
      fs1 (joinPath "out".toList (parseFilename "a.zone.gz".toList)) = none :=
  download_zone_size_verified.1
    ⟨true, 5, some "a.zone.gz".toList, .completed 4, true, 0⟩
    [⟨true, 5, some "a.zone.gz".toList, .completed 5, true, 0⟩]
    "out".toList false true emptyFS none "a.zone.gz".toList 4
    rfl rfl rfl (by decide) (by decide) (by decide)

/-- Claim C7 (amended): provided every attempt names the same file, a failing
`download_zone` leaves no file at any path — compressed or decompressed — and
a successful one was verified against the declared size whenever one was
present. -/
theorem download_zone_no_incomplete_artifact (env : Nat → AttemptSpec) (dir d : Str)
    (dec cl : Bool) (hd : ∀ i d', (env i).disposition = some d' → d' = d) :
    (∀ e, (download_zone env dir dec cl).result = .error e →
        ∀ q, (download_zone env dir dec cl).fs q = none) ∧
    (∀ s, (download_zone env dir dec cl).result = .ok s →
        s.expected ≠ 0 → s.total = s.expected) := by
  constructor
  · intro e he q
    refine runAttempts_error_clean dir dec cl d ((List.range maxRetries).map env) emptyFS none
      (by simp [maxRetries]) ?_ (Or.inl ⟨rfl, fun _ => rfl⟩) ⟨e, he⟩ q
    intro a ha d' hd'
    obtain ⟨i, _, rfl⟩ := List.mem_map.mp ha
    exact hd i d' hd'
  · intro s hs hexp
    exact ((runAttempts_ok_size dir dec cl ((List.range maxRetries).map env)
      emptyFS none) s hs).1 hexp

/-- Claim C7 (witness). -/
theorem download_zone_no_incomplete_artifact_witness :
    (∀ e, (download_zone (fun _ => ⟨true, 5, some "a.zone.gz".toList, .transportFail 3, true, 0⟩)
        "out".toList false true).result = .error e →
      ∀ q, (download_zone (fun _ => ⟨true, 5, some "a.zone.gz".toList, .transportFail 3, true, 0⟩)
        "out".toList false true).fs q = none) ∧
    (∀ s, (download_zone (fun _ => ⟨true, 5, some "a.zone.gz".toList, .transportFail 3, true, 0⟩)
        "out".toList false true).result = .ok s →
      s.expected ≠ 0 → s.total = s.expected) :=
  download_zone_no_incomplete_artifact
    (fun _ => ⟨true, 5, some "a.zone.gz".toList, .transportFail 3, true, 0⟩)
    "out".toList "a.zone.gz".toList false true
    (fun _ _ h => (Option.some.inj h).symm)

/-- Claim C7 (counterexample): when the server renames the file between
retries, a failed run leaves the first attempt's partial file on disk. -/
theorem download_zone_stale_partial_counterexample :
    (download_zone (fun i => if i = 0 then ⟨true, 5, some "a.zone.gz".toList, .transportFail 3, true, 0⟩
        else ⟨true, 5, some "b.zone.gz".toList, .transportFail 2, true, 0⟩)
      "out".toList false true).result = .error .transport ∧
    (download_zone (fun i => if i = 0 then ⟨true, 5, some "a.zone.gz".toList, .transportFail 3, true, 0⟩
        else ⟨true, 5, some "b.zone.gz".toList, .transportFail 2, true, 0⟩)
      "out".toList false true).fs "out/a.zone.gz".toList = some 3 := by
  exact ⟨by decide, by decide⟩

/-- Claim C8 (amended): when the transport fails on every attempt,
`download_zone` makes exactly `maxRetries` attempts, propagates the transport
error as the task's final failure, and leaves no lingering files. -/
theorem download_zone_transport_exhaustion (env : Nat → AttemptSpec) (dir d : Str)
    (dec cl : Bool) (w0 w1 w2 : Nat)
    (h0 : (env 0).status200 = true) (h0d : (env 0).disposition = some d)
    (h0t : (env 0).stream = .transportFail w0)
    (h1 : (env 1).status200 = true) (h1d : (env 1).disposition = some d)
    (h1t : (env 1).stream = .transportFail w1)
    (h2 : (env 2).status200 = true) (h2d : (env 2).disposition = some d)
    (h2t : (env 2).stream = .transportFail w2) :
    (download_zone env dir dec cl).result = .error .transport ∧
    (download_zone env dir dec cl).attempts = maxRetries ∧
    ∀ q, (download_zone env dir dec cl).fs q = none := by
  have hres : (download_zone env dir dec cl).result = .error .transport ∧
      (download_zone env dir dec cl).attempts = maxRetries := by
    unfold download_zone
    rw [show (List.range maxRetries).map env = [env 0, env 1, env 2] from rfl]
    simp [runAttempts, h0, h0d, h0t, h1, h1d, h1t, h2, h2d, h2t, maxRetries]
  refine ⟨hres.1, hres.2, ?_⟩
  intro q
  refine runAttempts_error_clean dir dec cl d ((List.range maxRetries).map env) emptyFS none
    (by simp [maxRetries]) ?_ (Or.inl ⟨rfl, fun _ => rfl⟩) ⟨.transport, hres.1⟩ q
  intro a ha d' hd'
  obtain ⟨i, hi, rfl⟩ := List.mem_map.mp ha
  have hi3 : i < 3 := List.mem_range.mp hi
  interval_cases i
  · exact Option.some.inj (hd'.symm.trans h0d)
  · exact Option.some.inj (hd'.symm.trans h1d)
  · exact Option.some.inj (hd'.symm.trans h2d)

/-- Claim C8 (witness). -/
theorem download_zone_transport_exhaustion_witness :
    (download_zone (fun _ => ⟨true, 5, some "a.zone.gz".toList, .transportFail 3, true, 0⟩)
      "out".toList false true).result = .error .transport ∧
    (download_zone (fun _ => ⟨true, 5, some "a.zone.gz".toList, .transportFail 3, true, 0⟩)
      "out".toList false true).attempts = maxRetries ∧
    ∀ q, (download_zone (fun _ => ⟨true, 5, some "a.zone.gz".toList, .transportFail 3, true, 0⟩)
      "out".toList false true).fs q = none :=
  download_zone_transport_exhaustion
    (fun _ => ⟨true, 5, some "a.zone.gz".toList, .transportFail 3, true, 0⟩)
    "out".toList "a.zone.gz".toList false true 3 3 3 rfl rfl rfl rfl rfl rfl rfl rfl rfl

/-- Claim C8 (counterexample): a missing filename header propagates after a
single attempt — exhaustion is not the only propagation path. -/
theorem download_zone_fails_without_exhaustion :
    (download_zone (fun _ => ⟨true, 0, none, .completed 0, true, 0⟩)
      "out".toList false true).result = .error .missingHeader ∧
    (download_zone (fun _ => ⟨true, 0, none, .completed 0, true, 0⟩)
      "out".toList false true).attempts = 1 ∧
    (((download_zone (fun _ => ⟨true, 0, none, .completed 0, true, 0⟩)
      "out".toList false true).attempts) == maxRetries) = false := by
  exact ⟨by decide, by decide, by decide⟩

/-- Claim C9: with concurrency limit `k ≥ 1`, every state the event loop can
reach keeps at most `k` downloads in flight; any reachable state with an
unfinished task has a next step (excess tasks merely wait for a slot), and
every step decreases the remaining work, so every maximal run is finite and
ends with all tasks terminal. -/
theorem semaphore_bounds_in_flight (k : Nat) (ws : List Nat) (st : SchedState)
    (hk : 1 ≤ k) (h : Reach k ws st) :
    inFlight st ≤ k ∧
    ((∃ t ∈ st.tasks, t ≠ TaskPhase.done) → ∃ st', SchedStep st st') ∧
    (∀ st', SchedStep st st' → schedMeasure st' < schedMeasure st) := by
  refine ⟨?_, sched_progress k hk ws st h, fun st' hs => schedStep_measure hs⟩
  have := reach_inv k ws st h
  omega

/-- Claim C9 (witness). -/
theorem semaphore_bounds_in_flight_witness :
    inFlight (initState 2 [1, 1, 1, 1, 1]) ≤ 2 ∧
    ((∃ t ∈ (initState 2 [1, 1, 1, 1, 1]).tasks, t ≠ TaskPhase.done) →
      ∃ st', SchedStep (initState 2 [1, 1, 1, 1, 1]) st') ∧
    (∀ st', SchedStep (initState 2 [1, 1, 1, 1, 1]) st' →
      schedMeasure st' < schedMeasure (initState 2 [1, 1, 1, 1, 1])) :=
  semaphore_bounds_in_flight 2 [1, 1, 1, 1, 1] (initState 2 [1, 1, 1, 1, 1])
    (by decide) Relation.ReflTransGen.refl

/-- Claim C10: the decompress operation derives its output path by removing
exactly the last three characters of the input path, with no check that the
path ends in `.gz` — `file.txt` becomes `file.` — and the same truncation is
applied to the result path after an in-download decompression. -/
theorem gzip_decompress_truncates_without_suffix_check :
    (∀ s : Str, gzip_decompress_output_path s = s.take (s.length - 3)) ∧
    gzip_decompress_output_path "file.txt".toList = "file.".toList ∧
    (download_zone (fun _ => ⟨true, 7, some "file.txt".toList, .completed 7, true, 4⟩)
        "dir".toList true false).result = .ok ⟨"dir/file.".toList, 7, 7⟩ :=
  ⟨fun _ => rfl, by decide, by decide⟩

end Czds
